import Mathlib

/-!
Verification of the surface-building logic of `riemann_surface_visualizer.py`.

The script builds, for the Riemann surface of w = z^(1/order), a polar grid
(radius × angle), maps every mesh point to Cartesian coordinates plus an
unfolded height θ/order, classifies each point into one of `sheets` angular
bands via floor(θ/2π) mod sheets, masks out points near the band boundaries
(branch cuts) with NaN, offsets each sheet vertically by 0.03·s, and renders
the result.  The NumPy arrays are embedded here pointwise: an array indexed by
the mesh becomes a function of the angle θ (and radius r where relevant), and
the NaN masking becomes an `Option` value.  Floating-point numbers are
modelled as real numbers; the decimal constants of the source (0.15, 1e-3,
0.03, 0.1) are written as the exact rationals they denote.
-/

open scoped Classical

/-- `np.linspace a b n`: `n` evenly spaced samples over `[a, b]`, endpoints
included (source lines 39–40 use `linspace(0.15, 2.0, 160)` and
`linspace(0.0, theta_max, 1600)`). Sample `i` is `a + (b - a) * i / (n - 1)`. -/
noncomputable def linspace (a b : ℝ) (n : ℕ) : List ℝ :=
(List.range n).map (fun i : ℕ => a + (b - a) * (i : ℝ) / ((n : ℝ) - 1))

/-- Source line 44: `X = R * np.cos(TH)`, per mesh point. -/
noncomputable def X (r θ : ℝ) : ℝ := r * Real.cos θ

/-- Source line 45: `Y = R * np.sin(TH)`, per mesh point. -/
noncomputable def Y (r θ : ℝ) : ℝ := r * Real.sin θ

/-- Source line 46: `H = TH / order`, the unfolded height field, per angle. -/
noncomputable def H (θ : ℝ) (order : ℤ) : ℝ := θ / order

/-- Source line 49: `sheet_idx = (TH // (2 * np.pi)).astype(int) % sheets`.
Float floor-division yields `⌊θ/(2π)⌋` exactly (the subsequent
`astype(int)` truncation is the identity on an already-floored value), and
NumPy integer `%` with a positive modulus agrees with `Int.emod`. -/
noncomputable def sheet_idx (θ : ℝ) (sheets : ℤ) : ℤ :=
⌊θ / (2 * Real.pi)⌋ % sheets

/-- Source line 57: `gap = 1e-3`, the branch-cut margin in radians. -/
noncomputable def gap : ℝ := 1 / 1000

/-- Source line 61: `lo = 2 * np.pi * s + gap`, lower edge of sheet band `s`. -/
noncomputable def lo (s : ℤ) : ℝ := 2 * Real.pi * s + gap

/-- Source line 62: `hi = 2 * np.pi * (s + 1) - gap`, upper edge of band `s`. -/
noncomputable def hi (s : ℤ) : ℝ := 2 * Real.pi * (s + 1) - gap

/-- Source line 63: `in_sheet = (sheet_idx == s) & (TH > lo) & (TH < hi)`,
the mask selecting the points rendered for sheet `s`. -/
def in_sheet (θ : ℝ) (sheets s : ℤ) : Prop :=
sheet_idx θ sheets = s ∧ lo s < θ ∧ θ < hi s

/-- Source line 67: `Hm = np.where(in_sheet, H + 0.03 * s, np.nan)`: the
rendered height of a point on sheet `s`, `none` standing for NaN. -/
noncomputable def Hm (θ : ℝ) (order sheets s : ℤ) : Option ℝ :=
if in_sheet θ sheets s then some (H θ order + 3 / 100 * s) else none

/-- Source lines 65–66: the masked Cartesian coordinates of sheet `s`. -/
noncomputable def Xm (r θ : ℝ) (sheets s : ℤ) : Option ℝ :=
if in_sheet θ sheets s then some (X r θ) else none

/-- Source lines 65–66: the masked Cartesian coordinates of sheet `s`. -/
noncomputable def Ym (r θ : ℝ) (sheets s : ℤ) : Option ℝ :=
if in_sheet θ sheets s then some (Y r θ) else none

/-- Source line 83: the upper bound passed to
`ax.set_zlim(0, theta_max / order + 0.1 * (sheets - 1))`. -/
noncomputable def zlim_hi (order : ℤ) (theta_max : ℝ) (sheets : ℤ) : ℝ :=
theta_max / order + 1 / 10 * ((sheets : ℝ) - 1)

/-- The data computed by one `plot_riemann` call (source lines 29–85):
resolved parameters, the two grid axes, and the configured z-axis limits.
The source performs no validation of `order` or `sheets`: the function is
total and has no error branch, exactly as the Python function has no
`raise`. -/
structure PlotData where
  order : ℤ
  thetaMax : ℝ
  sheets : ℤ
  r : List ℝ
  th : List ℝ
  zlimLo : ℝ
  zlimHi : ℝ

/-- Source lines 29–49 and 83: `plot_riemann(order, theta_max, sheets)`.
`theta_max` defaults to `2π·order` (line 34) and `sheets` to `order`
(line 36); the grids are `linspace(0.15, 2.0, 160)` and
`linspace(0.0, theta_max, 1600)` (lines 39–40); the z limits are
`(0, theta_max/order + 0.1*(sheets-1))` (line 83). -/
noncomputable def plot_riemann (order : ℤ) (theta_max : Option ℝ)
    (sheets : Option ℤ) : PlotData :=
{ order := order
  thetaMax := theta_max.getD (2 * Real.pi * order)
  sheets := sheets.getD order
  r := linspace (3 / 20) 2 160
  th := linspace 0 (theta_max.getD (2 * Real.pi * order)) 1600
  zlimLo := 0
  zlimHi := zlim_hi order (theta_max.getD (2 * Real.pi * order))
      (sheets.getD order) }

/-- Source line 89: the fixed sequence of orders swept by the driver. -/
def main_orders : List ℕ := [2, 4, 8, 16]

/-- Source line 90: `int(np.log2(order))`, the number of root symbols in the
derived title.  For the powers of two the driver uses, the float `log2` is
exact and the truncation is the identity, so this is `Nat.log2`. -/
def root_count (order : ℕ) : ℕ := Nat.log2 order

/-- Source line 90: `root_sign = "√" * int(np.log2(order))`. -/
def root_sign (order : ℕ) : String :=
String.join (List.replicate (root_count order) "√")

/-- Source line 91: the derived title string for one order. -/
def ttl (order : ℕ) : String :=
"Riemann surface of " ++ root_sign order ++ "z (" ++ toString order
  ++ " sheets)"

/-- Source lines 89–92: the driver invokes the builder once per order, with
defaulted `theta_max` and `sheets` and the derived title. -/
noncomputable def main_figs : List PlotData :=
main_orders.map (fun o : ℕ => plot_riemann (o : ℤ) none none)

theorem gap_pos : 0 < gap := by norm_num [gap]

/-- C1: contrary to the claim, `plot_riemann` performs no parameter
validation.  Called with `order = 0` or `order = -1`, or with `sheets = 0`,
nothing is raised: the resolved parameters are accepted as-is and the full
160 × 1600 grid is allocated (in the Python source the run then hits
`H = TH / order` and `% sheets`, NumPy division-by-zero warnings that yield
NaN/inf values rather than a descriptive error). -/
theorem plot_riemann_no_validation :
    (plot_riemann 0 none none).th.length = 1600 ∧
    (plot_riemann 0 none none).r.length = 160 ∧
    (plot_riemann (-1) none none).th.length = 1600 ∧
    (plot_riemann 0 none (some 0)).sheets = 0 := by
  refine ⟨?_, ?_, ?_, rfl⟩ <;>
    simp only [plot_riemann, linspace, List.length_map, List.length_range]

/-- C2: for every angle θ and every sheets ≥ 1, the computed sheet index
equals floor(θ / 2π) mod sheets and is an integer in [0, sheets). -/
theorem sheet_idx_eq_floor_mod_and_bounded (θ : ℝ) (sheets : ℤ)
    (h : 1 ≤ sheets) :
    sheet_idx θ sheets = ⌊θ / (2 * Real.pi)⌋ % sheets ∧
    0 ≤ sheet_idx θ sheets ∧ sheet_idx θ sheets < sheets := by
  unfold sheet_idx
  exact ⟨rfl, Int.emod_nonneg _ (by omega), Int.emod_lt_of_pos _ (by omega)⟩

theorem sheet_idx_eq_floor_mod_and_bounded_witness :
    (1:ℤ) ≤ 2 ∧ 0 ≤ sheet_idx Real.pi 2 ∧ sheet_idx Real.pi 2 < 2 :=
⟨by decide, (sheet_idx_eq_floor_mod_and_bounded Real.pi 2 (by decide)).2⟩

/-- C3: for two distinct sheets s1 ≠ s2, no angle is classified
valid-interior for both: the masks of distinct sheets are disjoint. -/
theorem sheet_bands_disjoint (θ : ℝ) (sheets s1 s2 : ℤ) (h : s1 ≠ s2) :
    ¬ (in_sheet θ sheets s1 ∧ in_sheet θ sheets s2) := by
  rintro ⟨⟨e1, -, -⟩, ⟨e2, -, -⟩⟩
  exact h (e1.symm.trans e2)

theorem sheet_bands_disjoint_witness :
    (0:ℤ) ≠ 1 ∧ ¬ (in_sheet Real.pi 2 0 ∧ in_sheet Real.pi 2 1) :=
⟨by decide, sheet_bands_disjoint Real.pi 2 0 1 (by decide)⟩

/-- C6: for order > 0 the height field H = θ/order is monotonically
non-decreasing in the angle. -/
theorem height_monotone (order : ℤ) (θ1 θ2 : ℝ) (hord : 0 < order)
    (hlt : θ1 < θ2) :
    H θ1 order = θ1 / order ∧ H θ2 order = θ2 / order ∧
    H θ1 order ≤ H θ2 order := by
  have hc : (0:ℝ) < (order : ℝ) := by exact_mod_cast hord
  refine ⟨rfl, rfl, ?_⟩
  unfold H
  gcongr


theorem height_monotone_witness :
    (0:ℤ) < 1 ∧ (0:ℝ) < 1 ∧ H 0 1 ≤ H 1 1 :=
⟨by decide, one_pos, (height_monotone 1 0 1 (by decide) one_pos).2.2⟩

theorem root_count_two : root_count 2 = 1 := by simp [root_count, Nat.log2]

theorem root_count_four : root_count 4 = 2 := by simp [root_count, Nat.log2]

theorem root_count_eight : root_count 8 = 3 := by simp [root_count, Nat.log2]

theorem root_count_sixteen : root_count 16 = 4 := by
  simp [root_count, Nat.log2]

/-- C9: the driver sweeps exactly the orders (2, 4, 8, 16); the derived
root-symbol repeat counts are (1, 2, 3, 4) — both as computed counts and as
lengths of the repeated-glyph strings — and the builder is invoked once per
order. -/
theorem driver_orders_and_root_counts :
    main_orders = [2, 4, 8, 16] ∧
    main_orders.map root_count = [1, 2, 3, 4] ∧
    main_orders.map (fun o => (root_sign o).length) = [1, 2, 3, 4] ∧
    main_figs.length = 4 := by
  refine ⟨rfl, ?_, ?_, ?_⟩
  · simp [main_orders, root_count_two, root_count_four, root_count_eight,
      root_count_sixteen]
  · simp only [main_orders, List.map_cons, List.map_nil, root_sign,
      root_count_two, root_count_four, root_count_eight, root_count_sixteen]
    decide
  · simp [main_figs, main_orders]

theorem linspace_mem_bounds (a b : ℝ) (n : ℕ) (hab : a ≤ b) (x : ℝ)
    (hx : x ∈ linspace a b n) : a ≤ x ∧ x ≤ b := by
  simp only [linspace, List.mem_map, List.mem_range] at hx
  obtain ⟨i, hin, rfl⟩ := hx
  have hd0 : (0:ℝ) ≤ b - a := sub_nonneg.mpr hab
  rcases Nat.lt_or_ge n 2 with hn | hn
  · have hi0 : i = 0 := by omega
    subst hi0
    norm_num
    exact hab
  · have h2 : (2:ℝ) ≤ (n:ℝ) := by exact_mod_cast hn
    have hi1 : (i:ℝ) + 1 ≤ (n:ℝ) := by exact_mod_cast hin
    have hq0 : 0 ≤ (i:ℝ) / ((n:ℝ) - 1) :=
      div_nonneg (Nat.cast_nonneg i) (by linarith)
    have hq1 : (i:ℝ) / ((n:ℝ) - 1) ≤ 1 := by
      rw [div_le_one (by linarith)]
      linarith
    rw [mul_div_assoc]
    constructor
    · nlinarith
    · nlinarith

/-- C5: with `theta_max` and `sheets` omitted, `plot_riemann order` resolves
`theta_max` to 2π·order and `sheets` to `order`, and the generated angle
samples span exactly [0, theta_max]: every sample lies in the interval and
both endpoints are sampled. -/
theorem defaults_and_angle_span (order : ℤ) (h : 1 ≤ order) :
    (plot_riemann order none none).thetaMax = 2 * Real.pi * order ∧
    (plot_riemann order none none).sheets = order ∧
    (0:ℝ) ∈ (plot_riemann order none none).th ∧
    (2 * Real.pi * order) ∈ (plot_riemann order none none).th ∧
    ∀ θ ∈ (plot_riemann order none none).th,
      0 ≤ θ ∧ θ ≤ 2 * Real.pi * order := by
  have hord : (1:ℝ) ≤ (order : ℝ) := by exact_mod_cast h
  have htm : (0:ℝ) ≤ 2 * Real.pi * order := by
    nlinarith [Real.pi_pos]
  refine ⟨rfl, rfl, ?_, ?_, ?_⟩
  · simp only [plot_riemann, Option.getD, linspace, List.mem_map,
      List.mem_range]
    exact ⟨0, by norm_num, by norm_num⟩
  · simp only [plot_riemann, Option.getD, linspace, List.mem_map,
      List.mem_range]
    refine ⟨1599, by norm_num, ?_⟩
    push_cast
    field_simp
    norm_num
  · intro θ hθ
    have hθm : θ ∈ linspace 0 (2 * Real.pi * (order : ℝ)) 1600 := by
      simpa only [plot_riemann, Option.getD] using hθ
    exact linspace_mem_bounds 0 (2 * Real.pi * order) 1600 htm θ hθm

theorem defaults_and_angle_span_witness :
    (1:ℤ) ≤ 1 ∧ (plot_riemann 1 none none).sheets = 1 :=
⟨le_refl 1, (defaults_and_angle_span 1 (le_refl 1)).2.1⟩

/-- C4: any angle within `gap` radians of a sheet boundary (a multiple of
2π) is excluded from the rendered set of every sheet: the mask of every
sheet — in particular both sheets adjacent to that boundary — rejects it,
and its rendered height is undefined. -/
theorem near_boundary_excluded (θ : ℝ) (k : ℤ)
    (h : |θ - 2 * Real.pi * k| ≤ gap) (order sheets s : ℤ) :
    ¬ in_sheet θ sheets s ∧ Hm θ order sheets s = none := by
  have hπ : (0:ℝ) < Real.pi := Real.pi_pos
  obtain ⟨hlow, hhigh⟩ := abs_le.mp h
  have hnot : ¬ in_sheet θ sheets s := by
    rintro ⟨-, hl, hr⟩
    unfold lo at hl
    unfold hi at hr
    unfold gap at hlow hhigh hl hr
    rcases le_or_lt (k : ℝ) (s : ℝ) with hks | hsk
    · have hmul : 2 * Real.pi * (k : ℝ) ≤ 2 * Real.pi * (s : ℝ) :=
        mul_le_mul_of_nonneg_left hks (by positivity)
      linarith
    · have hz : s < k := by exact_mod_cast hsk
      have hz1 : s + 1 ≤ k := by omega
      have hsk1 : (s : ℝ) + 1 ≤ (k : ℝ) := by exact_mod_cast hz1
      have hmul : 2 * Real.pi * ((s : ℝ) + 1) ≤ 2 * Real.pi * (k : ℝ) :=
        mul_le_mul_of_nonneg_left hsk1 (by positivity)
      linarith
  refine ⟨hnot, ?_⟩
  unfold Hm
  rw [if_neg hnot]

theorem near_boundary_excluded_witness :
    |2 * Real.pi - 2 * Real.pi * ((1:ℤ) : ℝ)| ≤ gap ∧
    ¬ in_sheet (2 * Real.pi) 2 0 := by
  have habs : |2 * Real.pi - 2 * Real.pi * ((1:ℤ) : ℝ)| ≤ gap := by
    norm_num [gap]
  exact ⟨habs, (near_boundary_excluded (2 * Real.pi) 1 habs 1 2 0).1⟩

/-- C10: a mesh angle at or beyond 2π·sheets is excluded from every sheet
drawn by the loop (0 ≤ s < sheets): every band's upper edge is at most
2π·sheets − gap, so the mask rejects the point and its rendered height is
undefined, even though the modulo wraps its sheet index into range. -/
theorem beyond_sheets_excluded (θ : ℝ) (order sheets s : ℤ)
    (hs : s < sheets) (hθ : 2 * Real.pi * sheets ≤ θ) :
    ¬ in_sheet θ sheets s ∧ Hm θ order sheets s = none := by
  have hπ : (0:ℝ) < Real.pi := Real.pi_pos
  have hz1 : s + 1 ≤ sheets := by omega
  have hs1 : (s : ℝ) + 1 ≤ (sheets : ℝ) := by exact_mod_cast hz1
  have hmul : 2 * Real.pi * ((s : ℝ) + 1) ≤ 2 * Real.pi * (sheets : ℝ) :=
    mul_le_mul_of_nonneg_left hs1 (by positivity)
  have hnot : ¬ in_sheet θ sheets s := by
    rintro ⟨-, -, hr⟩
    unfold hi gap at hr
    linarith
  refine ⟨hnot, ?_⟩
  unfold Hm
  rw [if_neg hnot]

theorem beyond_sheets_excluded_witness :
    (1:ℤ) < 2 ∧ 2 * Real.pi * ((2:ℤ) : ℝ) ≤ 2 * Real.pi * 2 ∧
    ¬ in_sheet (2 * Real.pi * 2) 2 1 :=
⟨by decide, by norm_num,
  (beyond_sheets_excluded (2 * Real.pi * 2) 2 2 1 (by decide)
    (by norm_num)).1⟩

/-- C7: in the call with order = 4 and sheets = 4, the point at angle
θ = 7π is classified to sheet 3 (its turn index is 3), its mask for sheet 3
accepts it, and its rendered offset height is 7π/4 + 0.09 — the base height
θ/order plus the per-sheet offset 0.03·3. -/
theorem scenario_order_four_theta_seven_pi :
    sheet_idx (7 * Real.pi) 4 = 3 ∧
    in_sheet (7 * Real.pi) 4 3 ∧
    Hm (7 * Real.pi) 4 4 3 = some (7 * Real.pi / 4 + 9 / 100) := by
  have hπ : (0:ℝ) < Real.pi := Real.pi_pos
  have hdiv : 7 * Real.pi / (2 * Real.pi) = 7 / 2 := by
    rw [div_eq_iff (by positivity)]
    ring
  have hfl : ⌊(7:ℝ) / 2⌋ = (3:ℤ) := by
    rw [Int.floor_eq_iff]
    norm_num
  have hidx : sheet_idx (7 * Real.pi) 4 = 3 := by
    unfold sheet_idx
    rw [hdiv, hfl]
    decide
  have hin : in_sheet (7 * Real.pi) 4 3 := by
    refine ⟨hidx, ?_, ?_⟩
    · unfold lo gap
      push_cast
      nlinarith [Real.pi_gt_three]
    · unfold hi gap
      push_cast
      nlinarith [Real.pi_gt_three]
  refine ⟨hidx, hin, ?_⟩
  unfold Hm
  rw [if_pos hin]
  unfold H
  congr 1
  push_cast
  ring

/-- C8 counterexample: for the defaulted call with order = 2 (so sheets = 2
and theta_max = 4π), the configured upper z limit is theta_max/order + 0.1,
not theta_max/order + 0.03 as the per-sheet offset 0.03·(sheets−1) = 0.03·1
would give: the claim fails on the code. -/
theorem zlim_differs_from_top_sheet_offset :
    (plot_riemann 2 none none).zlimHi ≠
      (plot_riemann 2 none none).thetaMax / 2 + 3 / 100 * ((2:ℝ) - 1) := by
  simp only [plot_riemann, Option.getD, zlim_hi]
  intro heq
  push_cast at heq
  linarith

/-- C8 amended: the z-axis limits are (0, theta_max/order + 0.1·(sheets−1)):
the base unfolded height range plus 0.1 per additional sheet, which exceeds
the claimed top-sheet offset 0.03·(sheets−1) by exactly 0.07·(sheets−1). -/
theorem zlim_formula (order : ℤ) (tm : ℝ) (sheets : ℤ) :
    (plot_riemann order (some tm) (some sheets)).zlimLo = 0 ∧
    (plot_riemann order (some tm) (some sheets)).zlimHi
      = tm / order + 1 / 10 * ((sheets : ℝ) - 1) ∧
    (plot_riemann order (some tm) (some sheets)).zlimHi
      - (tm / order + 3 / 100 * ((sheets : ℝ) - 1))
      = 7 / 100 * ((sheets : ℝ) - 1) := by
  refine ⟨rfl, rfl, ?_⟩
  simp only [plot_riemann, Option.getD, zlim_hi]
  ring
